import Mathlib

/-!
# smash-binary-reader: `src/python/bindings.cc`

A shallow embedding of `CollectorAccessor` and `run_analysis_file` from
`src/python/bindings.cc`, followed by the properties checked against it.

Conventions of the embedding

* `binaryreader.h`, `analysis.h` and `analysisregister.h` are not part of the
  sources at hand.  What `bindings.cc` uses from them (the catalog
  `quantity_string_map`, the `layout` pointer of `Accessor`, the fields of
  `ParticleBlock`, the `Analysis` interface) is taken as a parameter.
* A C++ call has three possible outcomes, kept apart in `Status`: it returns,
  it throws, or it reads outside a container (`particles[i]` past the end, or
  a `memcpy` past the end of a record), which C++ leaves undefined.
* An exception leaves the object in the state reached when it was thrown, so
  every outcome carries the accessor state.
* A `double` is represented by its 64-bit IEEE-754 pattern: `memcpy` copies
  the object representation and nothing here does arithmetic on it.  Multi-byte
  values are little-endian, as on the hosts the bindings are built for.
* `npart` is an unsigned count and `int` has 32 bits: `push_back(block.npart)`
  on the `std::vector<int>` keeps the low 32 bits, read in two's complement
  (`narrowToInt`).
-/

namespace SmashReader

/-! ## Data model -/

/-- Storage class of a quantity, `QuantityType::Double` or `QuantityType::Int32`. -/
inductive QuantityType
  | Double
  | Int32
  deriving DecidableEq, Repr

/-- Tag of the `Quantity` enumeration (the enumerators are declared in
`binaryreader.h`; only equality of tags is used). -/
abbrev Quantity := Nat

/-- Catalog entry `QuantityInfo {quantity, type}`. -/
structure QuantityInfo where
  quantity : Quantity
  type : QuantityType
  deriving DecidableEq, Repr

/-- The catalog `quantity_string_map`, listed in its iteration order.  It is a
map keyed by name, so the names of its entries are distinct; the properties
that need this assume `(catalog.map Prod.fst).Nodup`. -/
abbrev Catalog := List (String × QuantityInfo)

/-- The record layout `*layout`: quantity tag to byte offset. -/
abbrev Layout := List (Quantity × Nat)

/-- One byte of a particle record. -/
abbrev Byte := Fin 256

/-- A `ParticleBlock`.  `npart` is an unsigned particle count (it bounds the
`size_t` loop index). -/
structure ParticleBlock where
  event_number : Int
  ensamble_number : Int
  npart : Nat
  particles : List (List Byte)
  deriving DecidableEq, Repr

/-- The three data members of `CollectorAccessor`; a map is the list of its
entries, and `event_sizes` is the `std::vector<int>`. -/
structure CollectorAccessor where
  doubles : List (String × List Nat)
  ints : List (String × List Int)
  event_sizes : List Int
  deriving DecidableEq, Repr

/-- A default-constructed `CollectorAccessor`. -/
def CollectorAccessor.fresh : CollectorAccessor :=
  { doubles := [], ints := [], event_sizes := [] }

/-- How a call ended. -/
inductive Status
  | returned
  | threw (msg : String)
  | outOfRange
  deriving DecidableEq, Repr

/-- Outcome of a call on the accessor: the state it left and how it ended. -/
structure Step where
  state : CollectorAccessor
  status : Status
  deriving DecidableEq, Repr

/-! ## Maps of columns -/

/-- The call `m.find(name)`: the column stored under `name`, if any. -/
def mapAt {α : Type} : List (String × List α) → String → Option (List α)
  | [], _ => none
  | (k, vs) :: rest, name => if k = name then some vs else mapAt rest name

/-- The statement `m[name].push_back(v)`: `operator[]` inserts an empty column
when `name` has none, then `v` is appended. -/
def pushBack {α : Type} : List (String × List α) → String → α → List (String × List α)
  | [], name, v => [(name, [v])]
  | (k, vs) :: rest, name, v =>
    if k = name then (k, vs ++ [v]) :: rest else (k, vs) :: pushBack rest name v

/-- The values held under `name`, none when there is no such column. -/
def valuesUnder {α : Type} (m : List (String × List α)) (name : String) : List α :=
  (mapAt m name).getD []

/-! ## Decoding a record -/

/-- The `sizeof` of the C++ type behind a `QuantityType`. -/
def QuantityType.width : QuantityType → Nat
  | .Double => 8
  | .Int32 => 4

/-- The `width` bytes `memcpy` copies from `particle.data() + offset`; `none`
when the range `[offset, offset + width)` leaves the record. -/
def readBytes (particle : List Byte) (offset width : Nat) : Option (List Byte) :=
  if offset + width ≤ particle.length then some ((particle.drop offset).take width) else none

/-- Little-endian value of a byte string. -/
def leValue : List Byte → Nat
  | [] => 0
  | b :: bs => b.val + 256 * leValue bs

/-- Two's-complement reading of a 32-bit pattern. -/
def toInt32 (n : Nat) : Int :=
  if n % 2 ^ 32 < 2 ^ 31 then (n % 2 ^ 32 : Nat) else (n % 2 ^ 32 : Nat) - 2 ^ 32

/-- The conversion of the unsigned `block.npart` to the `int` element of
`event_sizes`: the value modulo `2^32`, read in two's complement. -/
def narrowToInt (n : Nat) : Int :=
  toInt32 n

/-- The pair `double val; memcpy(&val, particle.data() + offset, sizeof(double))`. -/
def readDouble (particle : List Byte) (offset : Nat) : Option Nat :=
  (readBytes particle offset QuantityType.Double.width).map leValue

/-- The pair `int32_t val; memcpy(&val, particle.data() + offset, sizeof(int32_t))`. -/
def readInt32 (particle : List Byte) (offset : Nat) : Option Int :=
  (readBytes particle offset QuantityType.Int32.width).map (fun bs => toInt32 (leValue bs))

/-! ## `CollectorAccessor::on_particle_block` -/

/-- The loop `for (const auto& [name, info] : quantity_string_map)` for
particle `i`, from the catalog entries still to visit.  The body, in source
order: the throw when `layout` is null, the unchecked `block.particles[i]`,
`layout->find(q)` with `continue` when the quantity is not found, then the
`memcpy` of 8 or 4 bytes at the offset and the `push_back` on the column of
that name. -/
def quantityLoop (layout : Option Layout) (particles : List (List Byte)) (i : Nat) :
    Catalog → CollectorAccessor → Step
  | [], acc => ⟨acc, .returned⟩
  | (name, info) :: rest, acc =>
    match layout with
    | none => ⟨acc, .threw "Layout not set"⟩
    | some l =>
      match particles[i]? with
      | none => ⟨acc, .outOfRange⟩
      | some particle =>
        match l.lookup info.quantity with
        | none => quantityLoop layout particles i rest acc
        | some offset =>
          match info.type with
          | .Double =>
            match readDouble particle offset with
            | none => ⟨acc, .outOfRange⟩
            | some val =>
              quantityLoop layout particles i rest
                { acc with doubles := pushBack acc.doubles name val }
          | .Int32 =>
            match readInt32 particle offset with
            | none => ⟨acc, .outOfRange⟩
            | some val =>
              quantityLoop layout particles i rest
                { acc with ints := pushBack acc.ints name val }

/-- The loop `for (size_t i = 0; i < block.npart; ++i)` with `remaining`
iterations to go, the next one at index `i`. -/
def particleLoop (layout : Option Layout) (catalog : Catalog) (particles : List (List Byte)) :
    Nat → Nat → CollectorAccessor → Step
  | 0, _, acc => ⟨acc, .returned⟩
  | remaining + 1, i, acc =>
    match quantityLoop layout particles i catalog acc with
    | ⟨acc1, .returned⟩ => particleLoop layout catalog particles remaining (i + 1) acc1
    | stopped => stopped

/-- The method `CollectorAccessor::on_particle_block`: `block.npart`, converted
to `int`, is pushed to `event_sizes`, then the particles are visited. -/
def on_particle_block (layout : Option Layout) (catalog : Catalog) (acc : CollectorAccessor)
    (block : ParticleBlock) : Step :=
  particleLoop layout catalog block.particles block.npart 0
    { acc with event_sizes := acc.event_sizes ++ [narrowToInt block.npart] }

/-- The method `CollectorAccessor::get_double_array`: `doubles.at(name)` throws
`std::out_of_range` when `name` has no column. -/
def get_double_array (acc : CollectorAccessor) (name : String) : Except String (List Nat) :=
  match mapAt acc.doubles name with
  | some column => .ok column
  | none => .error "std::out_of_range"

/-- The method `CollectorAccessor::get_int_array`: `ints.at(name)` throws
`std::out_of_range` when `name` has no column. -/
def get_int_array (acc : CollectorAccessor) (name : String) : Except String (List Int) :=
  match mapAt acc.ints name with
  | some column => .ok column
  | none => .error "std::out_of_range"

/-- The method `CollectorAccessor::get_event_sizes`. -/
def get_event_sizes (acc : CollectorAccessor) : List Int :=
  acc.event_sizes

/-- The reader's side of a read: the blocks are handed to `on_particle_block`
in stream order, and the first call that does not return ends the read.
`CollectorAccessor` does not override `on_end_block`, so the end-of-event
callbacks in between leave it alone. -/
def deliver (layout : Option Layout) (catalog : Catalog) :
    List ParticleBlock → CollectorAccessor → Step
  | [], acc => ⟨acc, .returned⟩
  | block :: rest, acc =>
    match on_particle_block layout catalog acc block with
    | ⟨acc1, .returned⟩ => deliver layout catalog rest acc1
    | stopped => stopped

/-- The bytes of catalog entry `entry`, when its quantity is in the layout, lie
inside the record `particle`. -/
def entryFits (l : Layout) (particle : List Byte) (entry : String × QuantityInfo) : Bool :=
  match l.lookup entry.2.quantity with
  | none => true
  | some offset => decide (offset + entry.2.type.width ≤ particle.length)

/-- Index `i` has a record in `particles`, and every catalog quantity found in
the layout fits in it. -/
def recordInRange (l : Layout) (catalog : Catalog) (particles : List (List Byte)) (i : Nat) :
    Bool :=
  match particles[i]? with
  | none => false
  | some particle => catalog.all (entryFits l particle)

/-- Every read of `on_particle_block` on `block` stays inside its container:
unless the catalog is empty (then no record is touched), `particles` has a
record for each index below `npart` and each catalog quantity found in the
layout fits in it. -/
def ParticleBlock.inRange (l : Layout) (catalog : Catalog) (block : ParticleBlock) : Bool :=
  catalog.isEmpty || (List.range block.npart).all (recordInRange l catalog block.particles)

/-- A block as the reader builds it: `npart` records of `stride` bytes each. -/
def ParticleBlock.hasStride (stride : Nat) (block : ParticleBlock) : Prop :=
  block.particles.length = block.npart ∧ ∀ record ∈ block.particles, record.length = stride

/-- Every catalog quantity the layout holds lies inside a record of `stride`
bytes. -/
def layoutWithin (stride : Nat) (catalog : Catalog) (l : Layout) : Prop :=
  ∀ entry ∈ catalog, ∀ offset, l.lookup entry.2.quantity = some offset →
    offset + entry.2.type.width ≤ stride

/-! ## The reads of a whole stream -/

/-- What the reads of `on_particle_block` give for a Double at `offset`, block
after block and particle after particle (`none` for a read out of range). -/
def readDoubleColumn (blocks : List ParticleBlock) (offset : Nat) : List (Option Nat) :=
  blocks.flatMap fun block =>
    (List.range block.npart).map fun i =>
      (block.particles[i]?).bind fun record => readDouble record offset

/-- What the reads of `on_particle_block` give for an Int32 at `offset`. -/
def readIntColumn (blocks : List ParticleBlock) (offset : Nat) : List (Option Int) :=
  blocks.flatMap fun block =>
    (List.range block.npart).map fun i =>
      (block.particles[i]?).bind fun record => readInt32 record offset

/-! ## The columns the decode rule describes -/

/-- The field of `width` bytes at `[offset, offset + width)` of `record` as an
unsigned number, byte `offset + k` weighing `256 ^ k`; `none` when the field
does not lie inside the record. -/
def specField (record : List Byte) (offset width : Nat) : Option Nat :=
  if offset + width ≤ record.length then
    some ((List.range width).map fun k => (record.getD (offset + k) 0).val * 256 ^ k).sum
  else none

/-- The 8 bytes at `[offset, offset + 8)` reinterpreted as a double, given by
its 64-bit pattern. -/
def specDouble (record : List Byte) (offset : Nat) : Option Nat :=
  specField record offset 8

/-- The 4 bytes at `[offset, offset + 4)` reinterpreted as a signed 32-bit
integer: the unsigned field when below `2^31`, and `2^32` less otherwise. -/
def specInt32 (record : List Byte) (offset : Nat) : Option Int :=
  (specField record offset 4).map fun (u : Nat) =>
    if u < 2 ^ 31 then (u : Int) else (u : Int) - 2 ^ 32

/-- The Double column of the decode rule for a quantity at `offset`: the blocks
in callback order, in each block the particle indices `0 .. npart - 1` in
increasing order, each giving the 8 bytes at `[offset, offset + 8)` of that
particle's record reinterpreted as a double (`none` where there is no such
record or the bytes leave it). -/
def specDoubleColumn (blocks : List ParticleBlock) (offset : Nat) : List (Option Nat) :=
  blocks.flatMap fun block =>
    (List.range block.npart).map fun i =>
      (block.particles[i]?).bind fun record => specDouble record offset

/-- The Int32 column of the decode rule for a quantity at `offset`: as
`specDoubleColumn`, with the 4 bytes at `[offset, offset + 4)` reinterpreted
as an `int32_t`. -/
def specIntColumn (blocks : List ParticleBlock) (offset : Nat) : List (Option Int) :=
  blocks.flatMap fun block =>
    (List.range block.npart).map fun i =>
      (block.particles[i]?).bind fun record => specInt32 record offset

/-- Number of values accumulated under `name` in the map of the given type
(0 when that map has no column for `name`). -/
def valueCount (acc : CollectorAccessor) (name : String) : QuantityType → Nat
  | .Double => (valuesUnder acc.doubles name).length
  | .Int32 => (valuesUnder acc.ints name).length

/-! ## `run_analysis_file` -/

/-- A call `run_analysis_file` makes on one of its collaborators. -/
inductive Call
  | make_dispatcher
  | create (analysis_name : String)
  | register_analysis
  | construct_reader (filepath : String) (quantities : List String)
  | read
  | save (path : String)
  | print_result_to
  deriving DecidableEq, Repr

/-- Modelled from the spec: `AnalysisRegistry`, `Analysis`, `DispatchingAccessor`
and `BinaryReader` are declared in headers that are not in the sources, so
their behaviour is a parameter.  `A` is the state of an analysis.  `create`
gives an analysis or "no value"; constructing the reader and `read()` can
fail (configuration and format errors); `read` leaves the registered analysis
in a new state; `save` and `print_result_to` have no failure in the spec's
error taxonomy, `save` may change the analysis and `print_result_to` yields the
text it writes to the sink. -/
structure Collaborators (A : Type) where
  create : String → Option A
  construct_reader : String → List String → Except String Unit
  read : String → List String → A → Except String A
  save : A → String → A
  print_result_to : A → String

/-- What a run of `run_analysis_file` did: the collaborator calls in the order
they were made, and the returned text or the message of the exception. -/
structure Run where
  calls : List Call
  result : Except String String

/-- The function `run_analysis_file`. -/
def run_analysis_file {A : Type} (env : Collaborators A) (filepath analysis_name : String)
    (quantities : List String) (save_path : Option String) (print_output : Bool) : Run :=
  let calls := [Call.make_dispatcher, Call.create analysis_name]
  match env.create analysis_name with
  | none => ⟨calls, .error ("Unknown analysis '" ++ analysis_name ++ "'")⟩
  | some analysis =>
    let calls := calls ++ [Call.register_analysis, Call.construct_reader filepath quantities]
    match env.construct_reader filepath quantities with
    | .error e => ⟨calls, .error e⟩
    | .ok _ =>
      let calls := calls ++ [Call.read]
      match env.read filepath quantities analysis with
      | .error e => ⟨calls, .error e⟩
      | .ok analysis =>
        let saved : A × List Call :=
          match save_path with
          | some path => (env.save analysis path, calls ++ [Call.save path])
          | none => (analysis, calls)
        let printed : String × List Call :=
          if print_output then
            (env.print_result_to saved.1, saved.2 ++ [Call.print_result_to])
          else ("", saved.2)
        ⟨printed.2, .ok printed.1⟩

/-- The analysis as `print_result_to` finds it: after `save` when a path was
given, as `read` left it otherwise. -/
def analysisAtPrint {A : Type} (env : Collaborators A) (afterRead : A) :
    Option String → A
  | some path => env.save afterRead path
  | none => afterRead

/-! ## Sample data -/

/-- A catalog with `px` (Double) and `pdg_id` (Int32), and `mass` (Double). -/
def sampleCatalog : Catalog :=
  [("px", ⟨0, .Double⟩), ("pdg_id", ⟨1, .Int32⟩), ("mass", ⟨2, .Double⟩)]

/-- A layout holding `px` at offset 0 and `pdg_id` at offset 8. -/
def sampleLayout : Layout := [(0, 0), (1, 8)]

/-- A 12-byte record: `px` bytes `k, 0, ..., 0` and `pdg_id` bytes `k, 1, 0, 0`. -/
def sampleRecord (k : Byte) : List Byte := [k, 0, 0, 0, 0, 0, 0, 0, k, 1, 0, 0]

/-- A block of `n` sample records. -/
def sampleBlock (event : Int) (n : Nat) : ParticleBlock :=
  { event_number := event, ensamble_number := 0, npart := n,
    particles := (List.range n).map fun k => sampleRecord (Fin.ofNat k) }

/-- A registry knowing the single analysis `count`, whose state is a counter:
`read` adds the number of requested quantities, `save` leaves it alone and
`print_result_to` tells whether anything was counted. -/
def sampleCollaborators : Collaborators Nat :=
  { create := fun name => if name = "count" then some 0 else none
    construct_reader := fun _ _ => .ok ()
    read := fun _ quantities n => .ok (n + quantities.length)
    save := fun n _ => n
    print_result_to := fun n => if n = 0 then "nothing counted" else "counted" }

/-- A block of `n` particles that all carry the record `sampleRecord 0`. -/
def uniformBlock (n : Nat) : ParticleBlock :=
  { event_number := 0, ensamble_number := 0, npart := n,
    particles := List.replicate n (sampleRecord 0) }

/-- A record with `px = 1.0` (pattern `0x3FF0000000000000`) and
`pdg_id = -211` (bytes `2D FF FF FF`). -/
def physicalRecord : List Byte := [0, 0, 0, 0, 0, 0, 0xF0, 0x3F, 0x2D, 0xFF, 0xFF, 0xFF]

/-- A block of one particle with the record `physicalRecord`. -/
def physicalBlock : ParticleBlock :=
  { event_number := 0, ensamble_number := 0, npart := 1, particles := [physicalRecord] }

/-- The two events of sizes 3 and 5 of the round-trip scenario. -/
def sampleStream : List ParticleBlock := [sampleBlock 0 3, sampleBlock 1 5]

/-- A block announcing one particle whose record has 4 bytes only, too short
for the double `px` the sample layout puts at offset 0. -/
def shortRecordBlock : ParticleBlock :=
  { event_number := 0, ensamble_number := 0, npart := 1, particles := [[1, 2, 3, 4]] }

/-! ## Columns: pushing and looking up -/

theorem mapAt_pushBack_same {α : Type} (m : List (String × List α)) (name : String) (v : α) :
    mapAt (pushBack m name v) name = some (valuesUnder m name ++ [v]) := by
  induction m with
  | nil => simp [pushBack, mapAt, valuesUnder]
  | cons e rest ih =>
    obtain ⟨k, vs⟩ := e
    by_cases h : k = name
    · simp [pushBack, mapAt, valuesUnder, h]
    · simpa [pushBack, mapAt, valuesUnder, h] using ih

theorem mapAt_pushBack_other {α : Type} (m : List (String × List α)) (name key : String) (v : α)
    (h : name ≠ key) : mapAt (pushBack m name v) key = mapAt m key := by
  induction m with
  | nil => simp [pushBack, mapAt, h]
  | cons e rest ih =>
    obtain ⟨k, vs⟩ := e
    by_cases hk : k = name
    · subst hk
      simp [pushBack, mapAt, h]
    · by_cases hk2 : k = key
      · subst hk2
        simp [pushBack, mapAt, hk]
      · simpa [pushBack, mapAt, hk, hk2] using ih

theorem valuesUnder_pushBack_same {α : Type} (m : List (String × List α)) (name : String)
    (v : α) : valuesUnder (pushBack m name v) name = valuesUnder m name ++ [v] := by
  simp [valuesUnder, mapAt_pushBack_same m name v]

theorem valuesUnder_pushBack_other {α : Type} (m : List (String × List α)) (name key : String)
    (v : α) (h : name ≠ key) : valuesUnder (pushBack m name v) key = valuesUnder m key := by
  simp [valuesUnder, mapAt_pushBack_other m name key v h]

/-! ## Reads -/

theorem readDouble_eq_none (particle : List Byte) (offset : Nat) :
    readDouble particle offset = none ↔ ¬ offset + 8 ≤ particle.length := by
  simp [readDouble, readBytes, QuantityType.width]

theorem readInt32_eq_none (particle : List Byte) (offset : Nat) :
    readInt32 particle offset = none ↔ ¬ offset + 4 ≤ particle.length := by
  simp [readInt32, readBytes, QuantityType.width]

theorem sum_shift (f : Nat → Nat) (n : Nat) :
    ((List.range n).map fun k => f k * 256 ^ (k + 1)).sum =
      256 * ((List.range n).map fun k => f k * 256 ^ k).sum := by
  induction n with
  | zero => simp
  | succ n ih =>
    simp only [List.range_succ, List.map_append, List.sum_append, ih, List.map_cons,
      List.map_nil, List.sum_cons, List.sum_nil]
    ring

theorem leValue_eq_sum (bs : List Byte) :
    leValue bs = ((List.range bs.length).map fun k => (bs.getD k 0).val * 256 ^ k).sum := by
  induction bs with
  | nil => simp [leValue]
  | cons b bs ih =>
    rw [leValue, ih, List.length_cons, List.range_succ_eq_map, List.map_cons, List.sum_cons,
      List.map_map]
    have := sum_shift (fun k => (bs.getD k 0).val) bs.length
    simp only [List.getD_cons_zero, pow_zero, mul_one, Function.comp_def, Nat.succ_eq_add_one,
      List.getD_cons_succ]
    rw [this]

theorem leValue_lt (bs : List Byte) : leValue bs < 256 ^ bs.length := by
  induction bs with
  | nil => simp [leValue]
  | cons b bs ih =>
    rw [leValue, List.length_cons, pow_succ]
    have := b.isLt
    omega

theorem leValue_field (record : List Byte) (offset width : Nat)
    (h : offset + width ≤ record.length) :
    leValue ((record.drop offset).take width) =
      ((List.range width).map fun k => (record.getD (offset + k) 0).val * 256 ^ k).sum := by
  have hlen : ((record.drop offset).take width).length = width := by
    rw [List.length_take, List.length_drop]; omega
  rw [leValue_eq_sum, hlen]
  congr 1
  apply List.map_congr_left
  intro k hk
  have hk2 : k < width := List.mem_range.1 hk
  simp only [List.getD_eq_getElem?_getD, List.getElem?_take_of_lt hk2, List.getElem?_drop]

theorem toInt32_of_lt (n : Nat) (h : n < 2 ^ 31) : toInt32 n = (n : Int) := by
  have h1 : n % 2 ^ 32 = n := Nat.mod_eq_of_lt (by omega)
  unfold toInt32
  rw [h1, if_pos h]

theorem toInt32_small (n : Nat) (h : n < 2 ^ 32) :
    toInt32 n = if n < 2 ^ 31 then (n : Int) else (n : Int) - 2 ^ 32 := by
  have h1 : n % 2 ^ 32 = n := Nat.mod_eq_of_lt h
  unfold toInt32
  rw [h1]

theorem readDouble_eq_spec (record : List Byte) (offset : Nat) :
    readDouble record offset = specDouble record offset := by
  unfold readDouble specDouble readBytes specField
  simp only [QuantityType.width]
  split
  · next h => simp [leValue_field record offset 8 h]
  · rfl

theorem readInt32_eq_spec (record : List Byte) (offset : Nat) :
    readInt32 record offset = specInt32 record offset := by
  unfold readInt32 specInt32 readBytes specField
  simp only [QuantityType.width]
  split
  · next h =>
    have hlen : ((record.drop offset).take 4).length = 4 := by
      rw [List.length_take, List.length_drop]; omega
    have hlt : leValue ((record.drop offset).take 4) < 2 ^ 32 := by
      have := leValue_lt ((record.drop offset).take 4)
      rw [hlen] at this
      exact this
    simp only [Option.map_some']
    rw [toInt32_small _ hlt, leValue_field record offset 4 h]
  · rfl

theorem readDoubleColumn_eq_spec (blocks : List ParticleBlock) (offset : Nat) :
    readDoubleColumn blocks offset = specDoubleColumn blocks offset := by
  simp only [readDoubleColumn, specDoubleColumn, readDouble_eq_spec]

theorem readIntColumn_eq_spec (blocks : List ParticleBlock) (offset : Nat) :
    readIntColumn blocks offset = specIntColumn blocks offset := by
  simp only [readIntColumn, specIntColumn, readInt32_eq_spec]

theorem narrowToInt_of_lt (n : Nat) (h : n < 2 ^ 31) : narrowToInt n = (n : Int) :=
  toInt32_of_lt n h

theorem map_narrowToInt_of_lt (blocks : List ParticleBlock)
    (h : ∀ block ∈ blocks, block.npart < 2 ^ 31) :
    blocks.map (fun block => narrowToInt block.npart) =
      blocks.map (fun block => (block.npart : Int)) :=
  List.map_congr_left fun block hb => narrowToInt_of_lt block.npart (h block hb)

theorem sum_map_npart_cast (blocks : List ParticleBlock) :
    (blocks.map fun block => (block.npart : Int)).sum =
      (((blocks.map fun block => block.npart).sum : Nat) : Int) := by
  induction blocks with
  | nil => simp
  | cons block rest ih => simp [ih]

/-! ## The loop over the catalog -/

theorem quantityLoop_none (particles : List (List Byte)) (i : Nat) (catalog : Catalog)
    (acc : CollectorAccessor) :
    quantityLoop none particles i catalog acc =
      ⟨acc, if catalog.isEmpty then .returned else .threw "Layout not set"⟩ := by
  cases catalog with
  | nil => simp [quantityLoop]
  | cons e rest => obtain ⟨name, info⟩ := e; simp [quantityLoop]

theorem quantityLoop_status_missing (l : Layout) (particles : List (List Byte)) (i : Nat)
    (catalog : Catalog) (acc : CollectorAccessor) (hp : particles[i]? = none) :
    (quantityLoop (some l) particles i catalog acc).status =
      bif catalog.isEmpty then .returned else .outOfRange := by
  cases catalog with
  | nil => simp [quantityLoop]
  | cons e rest => obtain ⟨name, info⟩ := e; simp [quantityLoop, hp]

theorem entryFits_absent (l : Layout) (particle : List Byte) (name : String)
    (info : QuantityInfo) (h : l.lookup info.quantity = none) :
    entryFits l particle (name, info) = true := by
  simp [entryFits, h]

theorem entryFits_present (l : Layout) (particle : List Byte) (name : String)
    (info : QuantityInfo) (offset : Nat) (h : l.lookup info.quantity = some offset) :
    entryFits l particle (name, info) = decide (offset + info.type.width ≤ particle.length) := by
  simp [entryFits, h]

theorem quantityLoop_status_record (l : Layout) (particles : List (List Byte)) (i : Nat)
    (particle : List Byte) (hp : particles[i]? = some particle) (catalog : Catalog)
    (acc : CollectorAccessor) :
    (quantityLoop (some l) particles i catalog acc).status =
      bif catalog.all (entryFits l particle) then .returned else .outOfRange := by
  induction catalog generalizing acc with
  | nil => simp [quantityLoop]
  | cons e rest ih =>
    obtain ⟨name, info⟩ := e
    simp only [quantityLoop, hp, List.all_cons]
    split
    · next hl =>
      simpa [entryFits_absent l particle name info hl] using ih acc
    · next offset hl =>
      simp only [entryFits_present l particle name info offset hl]
      split
      · next hty =>
        split
        · next hr =>
          have := (readDouble_eq_none particle offset).1 hr
          simp [hty, QuantityType.width, this]
        · next val hr =>
          have : offset + 8 ≤ particle.length := by
            by_contra hc
            rw [(readDouble_eq_none particle offset).2 hc] at hr
            cases hr
          simpa [hty, QuantityType.width, this] using ih _
      · next hty =>
        split
        · next hr =>
          have := (readInt32_eq_none particle offset).1 hr
          simp [hty, QuantityType.width, this]
        · next val hr =>
          have : offset + 4 ≤ particle.length := by
            by_contra hc
            rw [(readInt32_eq_none particle offset).2 hc] at hr
            cases hr
          simpa [hty, QuantityType.width, this] using ih _

theorem quantityLoop_status (l : Layout) (particles : List (List Byte)) (i : Nat)
    (catalog : Catalog) (acc : CollectorAccessor) :
    (quantityLoop (some l) particles i catalog acc).status =
      bif catalog.isEmpty || recordInRange l catalog particles i then .returned
      else .outOfRange := by
  cases hp : particles[i]? with
  | none =>
    rw [quantityLoop_status_missing l particles i catalog acc hp]
    simp [recordInRange, hp]
  | some particle =>
    rw [quantityLoop_status_record l particles i particle hp catalog acc]
    cases catalog with
    | nil => simp
    | cons e rest => simp [recordInRange, hp]

theorem quantityLoop_event_sizes (layout : Option Layout) (particles : List (List Byte))
    (i : Nat) (catalog : Catalog) (acc : CollectorAccessor) :
    (quantityLoop layout particles i catalog acc).state.event_sizes = acc.event_sizes := by
  induction catalog generalizing acc with
  | nil => simp [quantityLoop]
  | cons e rest ih =>
    obtain ⟨name, info⟩ := e
    simp only [quantityLoop]
    repeat' split
    all_goals first
      | rfl
      | exact ih _

/-! ## What the loop over the catalog does to one column -/

theorem quantityLoop_doubles_untouched (l : Layout) (particles : List (List Byte)) (i : Nat)
    (name : String) (catalog : Catalog) (acc : CollectorAccessor)
    (h : ∀ info, (name, info) ∈ catalog → info.type = .Double →
      l.lookup info.quantity = none) :
    mapAt (quantityLoop (some l) particles i catalog acc).state.doubles name =
      mapAt acc.doubles name := by
  induction catalog generalizing acc with
  | nil => simp [quantityLoop]
  | cons e rest ih =>
    obtain ⟨n, inf⟩ := e
    have hrest : ∀ info, (name, info) ∈ rest → info.type = .Double →
        l.lookup info.quantity = none :=
      fun info hm => h info (List.mem_cons_of_mem _ hm)
    simp only [quantityLoop]
    split
    · rfl
    · split
      · exact ih acc hrest
      · next offset hl =>
        split
        · next hty =>
          split
          · rfl
          · have hn : n ≠ name := by
              intro hEq
              subst hEq
              have := h inf (List.mem_cons_self _ _) hty
              rw [hl] at this
              cases this
            rw [ih _ hrest]
            exact mapAt_pushBack_other acc.doubles n name _ hn
        · split
          · rfl
          · exact ih _ hrest

theorem quantityLoop_doubles_appended (l : Layout) (particles : List (List Byte)) (i : Nat)
    (particle : List Byte) (hp : particles[i]? = some particle) (name : String)
    (info : QuantityInfo) (offset : Nat) (hty : info.type = .Double)
    (hl : l.lookup info.quantity = some offset) (catalog : Catalog)
    (hkeys : (catalog.map Prod.fst).Nodup) (hmem : (name, info) ∈ catalog)
    (acc : CollectorAccessor)
    (hret : (quantityLoop (some l) particles i catalog acc).status = .returned) :
    (valuesUnder (quantityLoop (some l) particles i catalog acc).state.doubles name).map some =
      (valuesUnder acc.doubles name).map some ++ [readDouble particle offset] := by
  induction catalog generalizing acc with
  | nil => cases hmem
  | cons e rest ih =>
    obtain ⟨n, inf⟩ := e
    simp only [List.map_cons, List.nodup_cons] at hkeys
    obtain ⟨hfresh, hnodup⟩ := hkeys
    rcases List.mem_cons.1 hmem with heq | hin
    · cases heq
      simp only [quantityLoop, hp, hl, hty] at hret ⊢
      cases hr : readDouble particle offset with
      | none => simp [hr] at hret
      | some val =>
        simp only [hr]
        have hvac : ∀ info2, (name, info2) ∈ rest → info2.type = .Double →
            l.lookup info2.quantity = none := by
          intro info2 hm
          exact absurd (List.mem_map_of_mem Prod.fst hm) hfresh
        have hm := quantityLoop_doubles_untouched l particles i name rest
          { acc with doubles := pushBack acc.doubles name val } hvac
        simp only [valuesUnder, hm, mapAt_pushBack_same]
        simp [valuesUnder]
    · have hn : n ≠ name := by
        intro hEq
        subst hEq
        exact hfresh (List.mem_map_of_mem Prod.fst hin)
      simp only [quantityLoop, hp] at hret ⊢
      split at hret
      · exact ih hnodup hin acc hret
      · split at hret
        · split at hret
          · cases hret
          · next val hr =>
            rw [ih hnodup hin _ hret]
            simp [valuesUnder_pushBack_other acc.doubles n name val hn]
        · split at hret
          · cases hret
          · exact ih hnodup hin _ hret

theorem quantityLoop_ints_untouched (l : Layout) (particles : List (List Byte)) (i : Nat)
    (name : String) (catalog : Catalog) (acc : CollectorAccessor)
    (h : ∀ info, (name, info) ∈ catalog → info.type = .Int32 →
      l.lookup info.quantity = none) :
    mapAt (quantityLoop (some l) particles i catalog acc).state.ints name =
      mapAt acc.ints name := by
  induction catalog generalizing acc with
  | nil => simp [quantityLoop]
  | cons e rest ih =>
    obtain ⟨n, inf⟩ := e
    have hrest : ∀ info, (name, info) ∈ rest → info.type = .Int32 →
        l.lookup info.quantity = none :=
      fun info hm => h info (List.mem_cons_of_mem _ hm)
    simp only [quantityLoop]
    split
    · rfl
    · split
      · exact ih acc hrest
      · next offset hl =>
        split
        · split
          · rfl
          · exact ih _ hrest
        · next hty =>
          split
          · rfl
          · have hn : n ≠ name := by
              intro hEq
              subst hEq
              have := h inf (List.mem_cons_self _ _) hty
              rw [hl] at this
              cases this
            rw [ih _ hrest]
            exact mapAt_pushBack_other acc.ints n name _ hn

theorem quantityLoop_ints_appended (l : Layout) (particles : List (List Byte)) (i : Nat)
    (particle : List Byte) (hp : particles[i]? = some particle) (name : String)
    (info : QuantityInfo) (offset : Nat) (hty : info.type = .Int32)
    (hl : l.lookup info.quantity = some offset) (catalog : Catalog)
    (hkeys : (catalog.map Prod.fst).Nodup) (hmem : (name, info) ∈ catalog)
    (acc : CollectorAccessor)
    (hret : (quantityLoop (some l) particles i catalog acc).status = .returned) :
    (valuesUnder (quantityLoop (some l) particles i catalog acc).state.ints name).map some =
      (valuesUnder acc.ints name).map some ++ [readInt32 particle offset] := by
  induction catalog generalizing acc with
  | nil => cases hmem
  | cons e rest ih =>
    obtain ⟨n, inf⟩ := e
    simp only [List.map_cons, List.nodup_cons] at hkeys
    obtain ⟨hfresh, hnodup⟩ := hkeys
    rcases List.mem_cons.1 hmem with heq | hin
    · cases heq
      simp only [quantityLoop, hp, hl, hty] at hret ⊢
      cases hr : readInt32 particle offset with
      | none => simp [hr] at hret
      | some val =>
        simp only [hr]
        have hvac : ∀ info2, (name, info2) ∈ rest → info2.type = .Int32 →
            l.lookup info2.quantity = none := by
          intro info2 hm
          exact absurd (List.mem_map_of_mem Prod.fst hm) hfresh
        have hm := quantityLoop_ints_untouched l particles i name rest
          { acc with ints := pushBack acc.ints name val } hvac
        simp only [valuesUnder, hm, mapAt_pushBack_same]
        simp [valuesUnder]
    · have hn : n ≠ name := by
        intro hEq
        subst hEq
        exact hfresh (List.mem_map_of_mem Prod.fst hin)
      simp only [quantityLoop, hp] at hret ⊢
      split at hret
      · exact ih hnodup hin acc hret
      · split at hret
        · split at hret
          · cases hret
          · exact ih hnodup hin _ hret
        · split at hret
          · cases hret
          · next val hr =>
            rw [ih hnodup hin _ hret]
            simp [valuesUnder_pushBack_other acc.ints n name val hn]

/-! ## The loop over the particles -/

theorem particleLoop_succ_returned (layout : Option Layout) (catalog : Catalog)
    (particles : List (List Byte)) (remaining i : Nat) (acc : CollectorAccessor)
    (h : (quantityLoop layout particles i catalog acc).status = .returned) :
    particleLoop layout catalog particles (remaining + 1) i acc =
      particleLoop layout catalog particles remaining (i + 1)
        (quantityLoop layout particles i catalog acc).state := by
  rcases hq : quantityLoop layout particles i catalog acc with ⟨st, status⟩
  rw [hq] at h
  cases status <;> simp_all [particleLoop]

theorem particleLoop_succ_stopped (layout : Option Layout) (catalog : Catalog)
    (particles : List (List Byte)) (remaining i : Nat) (acc : CollectorAccessor)
    (h : (quantityLoop layout particles i catalog acc).status ≠ .returned) :
    particleLoop layout catalog particles (remaining + 1) i acc =
      quantityLoop layout particles i catalog acc := by
  rcases hq : quantityLoop layout particles i catalog acc with ⟨st, status⟩
  rw [hq] at h
  cases status <;> simp_all [particleLoop]

theorem particleLoop_status (l : Layout) (catalog : Catalog) (particles : List (List Byte))
    (remaining i : Nat) (acc : CollectorAccessor) :
    (particleLoop (some l) catalog particles remaining i acc).status =
      bif catalog.isEmpty || (List.range' i remaining).all (recordInRange l catalog particles)
      then .returned else .outOfRange := by
  induction remaining generalizing i acc with
  | zero => simp [particleLoop]
  | succ k ih =>
    have hq := quantityLoop_status l particles i catalog acc
    cases hok : catalog.isEmpty || recordInRange l catalog particles i with
    | true =>
      rw [hok] at hq
      rw [particleLoop_succ_returned _ _ _ _ _ _ hq, ih, List.range'_succ]
      cases hc : catalog.isEmpty with
      | true => simp
      | false =>
        rw [hc] at hok
        simp only [Bool.false_or] at hok
        simp [hok]
    | false =>
      rw [hok] at hq
      have hne : (quantityLoop (some l) particles i catalog acc).status ≠ .returned := by
        rw [hq]; simp
      rw [particleLoop_succ_stopped _ _ _ _ _ _ hne, hq, List.range'_succ]
      simp only [Bool.or_eq_false_iff] at hok
      simp [hok.1, hok.2]

theorem particleLoop_event_sizes (layout : Option Layout) (catalog : Catalog)
    (particles : List (List Byte)) (remaining i : Nat) (acc : CollectorAccessor) :
    (particleLoop layout catalog particles remaining i acc).state.event_sizes =
      acc.event_sizes := by
  induction remaining generalizing i acc with
  | zero => simp [particleLoop]
  | succ k ih =>
    by_cases h : (quantityLoop layout particles i catalog acc).status = .returned
    · rw [particleLoop_succ_returned _ _ _ _ _ _ h, ih, quantityLoop_event_sizes]
    · rw [particleLoop_succ_stopped _ _ _ _ _ _ h, quantityLoop_event_sizes]

theorem particleLoop_none (catalog : Catalog) (particles : List (List Byte))
    (remaining i : Nat) (acc : CollectorAccessor) :
    particleLoop none catalog particles remaining i acc =
      ⟨acc, bif catalog.isEmpty || remaining == 0 then .returned
        else .threw "Layout not set"⟩ := by
  induction remaining generalizing i with
  | zero => simp [particleLoop]
  | succ k ih =>
    cases hc : catalog.isEmpty with
    | true =>
      have hq : (quantityLoop none particles i catalog acc).status = .returned := by
        rw [quantityLoop_none, hc]; rfl
      rw [particleLoop_succ_returned _ _ _ _ _ _ hq, quantityLoop_none, ih, hc]
      simp
    | false =>
      have hq : (quantityLoop none particles i catalog acc).status ≠ .returned := by
        rw [quantityLoop_none, hc]; simp
      rw [particleLoop_succ_stopped _ _ _ _ _ _ hq, quantityLoop_none, hc]
      simp

theorem quantityLoop_returned_record (l : Layout) (particles : List (List Byte)) (i : Nat)
    (catalog : Catalog) (acc : CollectorAccessor) (hne : catalog ≠ [])
    (hret : (quantityLoop (some l) particles i catalog acc).status = .returned) :
    ∃ particle, particles[i]? = some particle := by
  cases hp : particles[i]? with
  | some particle => exact ⟨particle, rfl⟩
  | none =>
    rw [quantityLoop_status_missing l particles i catalog acc hp] at hret
    cases catalog with
    | nil => exact absurd rfl hne
    | cons e rest => simp at hret

theorem particleLoop_doubles_untouched (l : Layout) (catalog : Catalog)
    (particles : List (List Byte)) (name : String)
    (h : ∀ info, (name, info) ∈ catalog → info.type = .Double →
      l.lookup info.quantity = none)
    (remaining i : Nat) (acc : CollectorAccessor) :
    mapAt (particleLoop (some l) catalog particles remaining i acc).state.doubles name =
      mapAt acc.doubles name := by
  induction remaining generalizing i acc with
  | zero => simp [particleLoop]
  | succ k ih =>
    by_cases hq : (quantityLoop (some l) particles i catalog acc).status = .returned
    · rw [particleLoop_succ_returned _ _ _ _ _ _ hq, ih,
        quantityLoop_doubles_untouched l particles i name catalog acc h]
    · rw [particleLoop_succ_stopped _ _ _ _ _ _ hq,
        quantityLoop_doubles_untouched l particles i name catalog acc h]

theorem particleLoop_ints_untouched (l : Layout) (catalog : Catalog)
    (particles : List (List Byte)) (name : String)
    (h : ∀ info, (name, info) ∈ catalog → info.type = .Int32 →
      l.lookup info.quantity = none)
    (remaining i : Nat) (acc : CollectorAccessor) :
    mapAt (particleLoop (some l) catalog particles remaining i acc).state.ints name =
      mapAt acc.ints name := by
  induction remaining generalizing i acc with
  | zero => simp [particleLoop]
  | succ k ih =>
    by_cases hq : (quantityLoop (some l) particles i catalog acc).status = .returned
    · rw [particleLoop_succ_returned _ _ _ _ _ _ hq, ih,
        quantityLoop_ints_untouched l particles i name catalog acc h]
    · rw [particleLoop_succ_stopped _ _ _ _ _ _ hq,
        quantityLoop_ints_untouched l particles i name catalog acc h]

theorem particleLoop_doubles_appended (l : Layout) (catalog : Catalog)
    (particles : List (List Byte)) (name : String) (info : QuantityInfo) (offset : Nat)
    (hty : info.type = .Double) (hl : l.lookup info.quantity = some offset)
    (hkeys : (catalog.map Prod.fst).Nodup) (hmem : (name, info) ∈ catalog)
    (remaining i : Nat) (acc : CollectorAccessor)
    (hret : (particleLoop (some l) catalog particles remaining i acc).status = .returned) :
    (valuesUnder (particleLoop (some l) catalog particles remaining i acc).state.doubles
        name).map some =
      (valuesUnder acc.doubles name).map some ++
        (List.range' i remaining).map fun j =>
          (particles[j]?).bind fun record => readDouble record offset := by
  induction remaining generalizing i acc with
  | zero => simp [particleLoop]
  | succ k ih =>
    by_cases hq : (quantityLoop (some l) particles i catalog acc).status = .returned
    · rw [particleLoop_succ_returned _ _ _ _ _ _ hq] at hret ⊢
      obtain ⟨particle, hp⟩ := quantityLoop_returned_record l particles i catalog acc
        (List.ne_nil_of_mem hmem) hq
      rw [ih _ _ hret, quantityLoop_doubles_appended l particles i particle hp name info
        offset hty hl catalog hkeys hmem acc hq, List.range'_succ]
      simp [hp]
    · rw [particleLoop_succ_stopped _ _ _ _ _ _ hq] at hret
      exact absurd hret hq

theorem particleLoop_ints_appended (l : Layout) (catalog : Catalog)
    (particles : List (List Byte)) (name : String) (info : QuantityInfo) (offset : Nat)
    (hty : info.type = .Int32) (hl : l.lookup info.quantity = some offset)
    (hkeys : (catalog.map Prod.fst).Nodup) (hmem : (name, info) ∈ catalog)
    (remaining i : Nat) (acc : CollectorAccessor)
    (hret : (particleLoop (some l) catalog particles remaining i acc).status = .returned) :
    (valuesUnder (particleLoop (some l) catalog particles remaining i acc).state.ints
        name).map some =
      (valuesUnder acc.ints name).map some ++
        (List.range' i remaining).map fun j =>
          (particles[j]?).bind fun record => readInt32 record offset := by
  induction remaining generalizing i acc with
  | zero => simp [particleLoop]
  | succ k ih =>
    by_cases hq : (quantityLoop (some l) particles i catalog acc).status = .returned
    · rw [particleLoop_succ_returned _ _ _ _ _ _ hq] at hret ⊢
      obtain ⟨particle, hp⟩ := quantityLoop_returned_record l particles i catalog acc
        (List.ne_nil_of_mem hmem) hq
      rw [ih _ _ hret, quantityLoop_ints_appended l particles i particle hp name info
        offset hty hl catalog hkeys hmem acc hq, List.range'_succ]
      simp [hp]
    · rw [particleLoop_succ_stopped _ _ _ _ _ _ hq] at hret
      exact absurd hret hq

/-! ## One call of `on_particle_block` -/

theorem on_particle_block_status (l : Layout) (catalog : Catalog) (acc : CollectorAccessor)
    (block : ParticleBlock) :
    (on_particle_block (some l) catalog acc block).status =
      bif block.inRange l catalog then .returned else .outOfRange := by
  simp [on_particle_block, particleLoop_status, ParticleBlock.inRange, List.range_eq_range']

theorem on_particle_block_event_sizes (layout : Option Layout) (catalog : Catalog)
    (acc : CollectorAccessor) (block : ParticleBlock) :
    (on_particle_block layout catalog acc block).state.event_sizes =
      acc.event_sizes ++ [narrowToInt block.npart] := by
  simp [on_particle_block, particleLoop_event_sizes]

theorem inRange_of_stride (stride : Nat) (catalog : Catalog) (l : Layout)
    (block : ParticleBlock) (hl : layoutWithin stride catalog l)
    (hb : block.hasStride stride) : block.inRange l catalog = true := by
  obtain ⟨hlen, hrec⟩ := hb
  simp only [ParticleBlock.inRange, Bool.or_eq_true, List.all_eq_true, List.mem_range]
  right
  intro i hi
  have hi2 : i < block.particles.length := by omega
  have hp : block.particles[i]? = some block.particles[i] := List.getElem?_eq_getElem hi2
  simp only [recordInRange, hp, List.all_eq_true]
  intro entry hentry
  cases hq : l.lookup entry.2.quantity with
  | none => exact entryFits_absent l _ entry.1 entry.2 hq
  | some offset =>
    rw [show entry = (entry.1, entry.2) from rfl, entryFits_present l _ entry.1 entry.2 offset hq,
      hrec _ (List.getElem_mem hi2)]
    exact decide_eq_true (hl entry hentry offset hq)

theorem on_particle_block_doubles_untouched (l : Layout) (catalog : Catalog) (name : String)
    (h : ∀ info, (name, info) ∈ catalog → info.type = .Double →
      l.lookup info.quantity = none)
    (acc : CollectorAccessor) (block : ParticleBlock) :
    mapAt (on_particle_block (some l) catalog acc block).state.doubles name =
      mapAt acc.doubles name := by
  simp [on_particle_block, particleLoop_doubles_untouched l catalog block.particles name h]

theorem on_particle_block_ints_untouched (l : Layout) (catalog : Catalog) (name : String)
    (h : ∀ info, (name, info) ∈ catalog → info.type = .Int32 →
      l.lookup info.quantity = none)
    (acc : CollectorAccessor) (block : ParticleBlock) :
    mapAt (on_particle_block (some l) catalog acc block).state.ints name =
      mapAt acc.ints name := by
  simp [on_particle_block, particleLoop_ints_untouched l catalog block.particles name h]

theorem on_particle_block_doubles_appended (l : Layout) (catalog : Catalog) (name : String)
    (info : QuantityInfo) (offset : Nat) (hty : info.type = .Double)
    (hl : l.lookup info.quantity = some offset) (hkeys : (catalog.map Prod.fst).Nodup)
    (hmem : (name, info) ∈ catalog) (acc : CollectorAccessor) (block : ParticleBlock)
    (hret : (on_particle_block (some l) catalog acc block).status = .returned) :
    (valuesUnder (on_particle_block (some l) catalog acc block).state.doubles name).map some =
      (valuesUnder acc.doubles name).map some ++ readDoubleColumn [block] offset := by
  unfold on_particle_block at hret ⊢
  rw [particleLoop_doubles_appended l catalog block.particles name info offset hty hl hkeys
    hmem _ _ _ hret]
  simp [readDoubleColumn, List.range_eq_range']

theorem on_particle_block_ints_appended (l : Layout) (catalog : Catalog) (name : String)
    (info : QuantityInfo) (offset : Nat) (hty : info.type = .Int32)
    (hl : l.lookup info.quantity = some offset) (hkeys : (catalog.map Prod.fst).Nodup)
    (hmem : (name, info) ∈ catalog) (acc : CollectorAccessor) (block : ParticleBlock)
    (hret : (on_particle_block (some l) catalog acc block).status = .returned) :
    (valuesUnder (on_particle_block (some l) catalog acc block).state.ints name).map some =
      (valuesUnder acc.ints name).map some ++ readIntColumn [block] offset := by
  unfold on_particle_block at hret ⊢
  rw [particleLoop_ints_appended l catalog block.particles name info offset hty hl hkeys
    hmem _ _ _ hret]
  simp [readIntColumn, List.range_eq_range']

/-! ## A whole read -/

theorem deliver_cons_returned (layout : Option Layout) (catalog : Catalog)
    (block : ParticleBlock) (rest : List ParticleBlock) (acc : CollectorAccessor)
    (h : (on_particle_block layout catalog acc block).status = .returned) :
    deliver layout catalog (block :: rest) acc =
      deliver layout catalog rest (on_particle_block layout catalog acc block).state := by
  rcases hq : on_particle_block layout catalog acc block with ⟨st, status⟩
  rw [hq] at h
  cases status <;> simp_all [deliver]

theorem deliver_cons_stopped (layout : Option Layout) (catalog : Catalog)
    (block : ParticleBlock) (rest : List ParticleBlock) (acc : CollectorAccessor)
    (h : (on_particle_block layout catalog acc block).status ≠ .returned) :
    deliver layout catalog (block :: rest) acc = on_particle_block layout catalog acc block := by
  rcases hq : on_particle_block layout catalog acc block with ⟨st, status⟩
  rw [hq] at h
  cases status <;> simp_all [deliver]

theorem deliver_status (l : Layout) (catalog : Catalog) (blocks : List ParticleBlock)
    (acc : CollectorAccessor) :
    (deliver (some l) catalog blocks acc).status =
      bif blocks.all (fun block => block.inRange l catalog) then .returned
      else .outOfRange := by
  induction blocks generalizing acc with
  | nil => simp [deliver]
  | cons block rest ih =>
    have hs := on_particle_block_status l catalog acc block
    cases hb : block.inRange l catalog with
    | true =>
      rw [hb] at hs
      rw [deliver_cons_returned _ _ _ _ _ hs, ih]
      simp [hb]
    | false =>
      rw [hb] at hs
      have hne : (on_particle_block (some l) catalog acc block).status ≠ .returned := by
        rw [hs]; simp
      rw [deliver_cons_stopped _ _ _ _ _ hne, hs]
      simp [hb]

theorem deliver_returned (l : Layout) (catalog : Catalog) (blocks : List ParticleBlock)
    (acc : CollectorAccessor) (h : ∀ block ∈ blocks, block.inRange l catalog = true) :
    (deliver (some l) catalog blocks acc).status = .returned := by
  rw [deliver_status]
  have : blocks.all (fun block => block.inRange l catalog) = true := by
    simpa [List.all_eq_true] using h
  rw [this]
  rfl

theorem deliver_never_throws (l : Layout) (catalog : Catalog) (blocks : List ParticleBlock)
    (acc : CollectorAccessor) (msg : String) :
    (deliver (some l) catalog blocks acc).status ≠ .threw msg := by
  rw [deliver_status]
  cases blocks.all (fun block => block.inRange l catalog) <;> simp

theorem deliver_event_sizes (layout : Option Layout) (catalog : Catalog)
    (blocks : List ParticleBlock) (acc : CollectorAccessor)
    (hret : (deliver layout catalog blocks acc).status = .returned) :
    (deliver layout catalog blocks acc).state.event_sizes =
      acc.event_sizes ++ blocks.map (fun block => narrowToInt block.npart) := by
  induction blocks generalizing acc with
  | nil => simp [deliver]
  | cons block rest ih =>
    by_cases hq : (on_particle_block layout catalog acc block).status = .returned
    · rw [deliver_cons_returned _ _ _ _ _ hq] at hret ⊢
      rw [ih _ hret, on_particle_block_event_sizes]
      simp
    · rw [deliver_cons_stopped _ _ _ _ _ hq] at hret
      exact absurd hret hq

theorem deliver_doubles_untouched (l : Layout) (catalog : Catalog) (name : String)
    (h : ∀ info, (name, info) ∈ catalog → info.type = .Double →
      l.lookup info.quantity = none)
    (blocks : List ParticleBlock) (acc : CollectorAccessor) :
    mapAt (deliver (some l) catalog blocks acc).state.doubles name = mapAt acc.doubles name := by
  induction blocks generalizing acc with
  | nil => simp [deliver]
  | cons block rest ih =>
    by_cases hq : (on_particle_block (some l) catalog acc block).status = .returned
    · rw [deliver_cons_returned _ _ _ _ _ hq, ih,
        on_particle_block_doubles_untouched l catalog name h]
    · rw [deliver_cons_stopped _ _ _ _ _ hq,
        on_particle_block_doubles_untouched l catalog name h]

theorem deliver_ints_untouched (l : Layout) (catalog : Catalog) (name : String)
    (h : ∀ info, (name, info) ∈ catalog → info.type = .Int32 →
      l.lookup info.quantity = none)
    (blocks : List ParticleBlock) (acc : CollectorAccessor) :
    mapAt (deliver (some l) catalog blocks acc).state.ints name = mapAt acc.ints name := by
  induction blocks generalizing acc with
  | nil => simp [deliver]
  | cons block rest ih =>
    by_cases hq : (on_particle_block (some l) catalog acc block).status = .returned
    · rw [deliver_cons_returned _ _ _ _ _ hq, ih,
        on_particle_block_ints_untouched l catalog name h]
    · rw [deliver_cons_stopped _ _ _ _ _ hq,
        on_particle_block_ints_untouched l catalog name h]

theorem readDoubleColumn_cons (block : ParticleBlock) (rest : List ParticleBlock)
    (offset : Nat) :
    readDoubleColumn (block :: rest) offset =
      readDoubleColumn [block] offset ++ readDoubleColumn rest offset := by
  simp [readDoubleColumn]

theorem readIntColumn_cons (block : ParticleBlock) (rest : List ParticleBlock)
    (offset : Nat) :
    readIntColumn (block :: rest) offset =
      readIntColumn [block] offset ++ readIntColumn rest offset := by
  simp [readIntColumn]

theorem readDoubleColumn_length (blocks : List ParticleBlock) (offset : Nat) :
    (readDoubleColumn blocks offset).length = (blocks.map fun block => block.npart).sum := by
  induction blocks with
  | nil => simp [readDoubleColumn]
  | cons block rest ih =>
    rw [readDoubleColumn_cons, List.length_append, ih]
    simp [readDoubleColumn]

theorem readIntColumn_length (blocks : List ParticleBlock) (offset : Nat) :
    (readIntColumn blocks offset).length = (blocks.map fun block => block.npart).sum := by
  induction blocks with
  | nil => simp [readIntColumn]
  | cons block rest ih =>
    rw [readIntColumn_cons, List.length_append, ih]
    simp [readIntColumn]

theorem deliver_doubles_appended (l : Layout) (catalog : Catalog) (name : String)
    (info : QuantityInfo) (offset : Nat) (hty : info.type = .Double)
    (hl : l.lookup info.quantity = some offset) (hkeys : (catalog.map Prod.fst).Nodup)
    (hmem : (name, info) ∈ catalog) (blocks : List ParticleBlock) (acc : CollectorAccessor)
    (hret : (deliver (some l) catalog blocks acc).status = .returned) :
    (valuesUnder (deliver (some l) catalog blocks acc).state.doubles name).map some =
      (valuesUnder acc.doubles name).map some ++ readDoubleColumn blocks offset := by
  induction blocks generalizing acc with
  | nil => simp [deliver, readDoubleColumn]
  | cons block rest ih =>
    by_cases hq : (on_particle_block (some l) catalog acc block).status = .returned
    · rw [deliver_cons_returned _ _ _ _ _ hq] at hret ⊢
      rw [ih _ hret, on_particle_block_doubles_appended l catalog name info offset hty hl
        hkeys hmem acc block hq, readDoubleColumn_cons block rest, List.append_assoc]
    · rw [deliver_cons_stopped _ _ _ _ _ hq] at hret
      exact absurd hret hq

theorem deliver_ints_appended (l : Layout) (catalog : Catalog) (name : String)
    (info : QuantityInfo) (offset : Nat) (hty : info.type = .Int32)
    (hl : l.lookup info.quantity = some offset) (hkeys : (catalog.map Prod.fst).Nodup)
    (hmem : (name, info) ∈ catalog) (blocks : List ParticleBlock) (acc : CollectorAccessor)
    (hret : (deliver (some l) catalog blocks acc).status = .returned) :
    (valuesUnder (deliver (some l) catalog blocks acc).state.ints name).map some =
      (valuesUnder acc.ints name).map some ++ readIntColumn blocks offset := by
  induction blocks generalizing acc with
  | nil => simp [deliver, readIntColumn]
  | cons block rest ih =>
    by_cases hq : (on_particle_block (some l) catalog acc block).status = .returned
    · rw [deliver_cons_returned _ _ _ _ _ hq] at hret ⊢
      rw [ih _ hret, on_particle_block_ints_appended l catalog name info offset hty hl
        hkeys hmem acc block hq, readIntColumn_cons block rest, List.append_assoc]
    · rw [deliver_cons_stopped _ _ _ _ _ hq] at hret
      exact absurd hret hq

theorem catalog_entry_unique (catalog : Catalog) (hkeys : (catalog.map Prod.fst).Nodup)
    (name : String) (a b : QuantityInfo) (ha : (name, a) ∈ catalog)
    (hb : (name, b) ∈ catalog) : a = b := by
  induction catalog with
  | nil => cases ha
  | cons e rest ih =>
    simp only [List.map_cons, List.nodup_cons] at hkeys
    obtain ⟨hfresh, hnodup⟩ := hkeys
    rcases List.mem_cons.1 ha with ha1 | ha2
    · rcases List.mem_cons.1 hb with hb1 | hb2
      · rw [← hb1] at ha1
        exact (Prod.mk.inj ha1).2
      · subst ha1
        exact absurd (List.mem_map_of_mem Prod.fst hb2) hfresh
    · rcases List.mem_cons.1 hb with hb1 | hb2
      · subst hb1
        exact absurd (List.mem_map_of_mem Prod.fst ha2) hfresh
      · exact ih hnodup ha2 hb2

theorem deliver_valueCount (l : Layout) (catalog : Catalog) (blocks : List ParticleBlock)
    (name : String) (info : QuantityInfo) (offset : Nat)
    (hkeys : (catalog.map Prod.fst).Nodup) (hmem : (name, info) ∈ catalog)
    (hl : l.lookup info.quantity = some offset)
    (hret : (deliver (some l) catalog blocks .fresh).status = .returned) :
    valueCount (deliver (some l) catalog blocks .fresh).state name info.type =
      (blocks.map fun block => block.npart).sum := by
  cases hty : info.type with
  | Double =>
    have h := congrArg List.length
      (deliver_doubles_appended l catalog name info offset hty hl hkeys hmem blocks .fresh hret)
    simpa [valueCount, valuesUnder, mapAt, CollectorAccessor.fresh,
      readDoubleColumn_length] using h
  | Int32 =>
    have h := congrArg List.length
      (deliver_ints_appended l catalog name info offset hty hl hkeys hmem blocks .fresh hret)
    simpa [valueCount, valuesUnder, mapAt, CollectorAccessor.fresh,
      readIntColumn_length] using h

theorem deliver_fresh_event_sizes (l : Layout) (catalog : Catalog)
    (blocks : List ParticleBlock)
    (hret : (deliver (some l) catalog blocks .fresh).status = .returned) :
    get_event_sizes (deliver (some l) catalog blocks .fresh).state =
      blocks.map (fun block => narrowToInt block.npart) := by
  rw [get_event_sizes, deliver_event_sizes (some l) catalog blocks .fresh hret]
  rfl

theorem sampleLayout_within : layoutWithin 12 sampleCatalog sampleLayout := by
  intro entry hentry offset hl
  simp only [sampleCatalog, List.mem_cons, List.mem_singleton, List.not_mem_nil,
    or_false] at hentry
  rcases hentry with h | h | h <;> subst h <;>
    simp [sampleLayout, List.lookup] at hl <;> subst hl <;> decide

theorem uniformBlock_inRange (n : Nat) :
    (uniformBlock n).inRange sampleLayout sampleCatalog = true := by
  apply inRange_of_stride 12 sampleCatalog sampleLayout _ sampleLayout_within
  constructor
  · simp [uniformBlock]
  · intro record hrec
    rw [List.eq_of_mem_replicate hrec]
    rfl

theorem uniformBlock_returned (n : Nat) :
    (deliver (some sampleLayout) sampleCatalog [uniformBlock n] .fresh).status = .returned :=
  deliver_returned sampleLayout sampleCatalog [uniformBlock n] .fresh (by
    intro block hb
    rw [List.mem_singleton.1 hb]
    exact uniformBlock_inRange n)

theorem narrowToInt_two_pow_31 : narrowToInt (2 ^ 31) = -2147483648 := by
  decide

/-! ## Properties of `CollectorAccessor` -/

/-- Claim C1, as the code has it: when the blocks `b1 .. bn` of a read, each
with `npart < 2^31`, are delivered to a fresh accessor whose layout is set, and
every read stays in range (as for blocks holding `npart` records of the
layout's stride), all `n` calls return and `get_event_sizes()` is
`[b1.npart, ..., bn.npart]`, one entry per block in callback order; its sum is
the number of particles of all the blocks. -/
theorem event_sizes_lists_npart_per_block (l : Layout) (catalog : Catalog)
    (blocks : List ParticleBlock)
    (hrange : ∀ block ∈ blocks, block.inRange l catalog = true)
    (hbound : ∀ block ∈ blocks, block.npart < 2 ^ 31) :
    (deliver (some l) catalog blocks .fresh).status = .returned ∧
      get_event_sizes (deliver (some l) catalog blocks .fresh).state =
        blocks.map (fun block => (block.npart : Int)) ∧
      (get_event_sizes (deliver (some l) catalog blocks .fresh).state).sum =
        (((blocks.map fun block => block.npart).sum : Nat) : Int) := by
  have hret := deliver_returned l catalog blocks .fresh hrange
  have hes : get_event_sizes (deliver (some l) catalog blocks .fresh).state =
      blocks.map (fun block => (block.npart : Int)) := by
    rw [deliver_fresh_event_sizes l catalog blocks hret, map_narrowToInt_of_lt blocks hbound]
  exact ⟨hret, hes, by rw [hes, sum_map_npart_cast]⟩

theorem event_sizes_lists_npart_per_block_witness :
    ((∀ block ∈ sampleStream, block.inRange sampleLayout sampleCatalog = true) ∧
      (∀ block ∈ sampleStream, block.npart < 2 ^ 31)) ∧
      ((deliver (some sampleLayout) sampleCatalog sampleStream .fresh).status = .returned ∧
        get_event_sizes (deliver (some sampleLayout) sampleCatalog sampleStream .fresh).state =
          sampleStream.map (fun block => (block.npart : Int)) ∧
        (get_event_sizes
            (deliver (some sampleLayout) sampleCatalog sampleStream .fresh).state).sum =
          (((sampleStream.map fun block => block.npart).sum : Nat) : Int)) :=
  ⟨⟨by decide, by decide⟩,
    event_sizes_lists_npart_per_block sampleLayout sampleCatalog sampleStream (by decide)
      (by decide)⟩

/-- Claim C1 fails for a block of `2^31` particles: every read is in range and
the call returns, but the entry of `event_sizes` is `-2147483648`, the `int`
that `push_back(block.npart)` stores, and not `npart`. -/
theorem event_sizes_entry_wraps_at_two_pow_31 :
    (uniformBlock (2 ^ 31)).inRange sampleLayout sampleCatalog = true ∧
      (deliver (some sampleLayout) sampleCatalog [uniformBlock (2 ^ 31)] .fresh).status =
        .returned ∧
      get_event_sizes
          (deliver (some sampleLayout) sampleCatalog [uniformBlock (2 ^ 31)] .fresh).state =
        [-2147483648] ∧
      get_event_sizes
          (deliver (some sampleLayout) sampleCatalog [uniformBlock (2 ^ 31)] .fresh).state ≠
        [uniformBlock (2 ^ 31)].map (fun block => (block.npart : Int)) := by
  have hes := deliver_fresh_event_sizes sampleLayout sampleCatalog [uniformBlock (2 ^ 31)]
    (uniformBlock_returned (2 ^ 31))
  have hval : get_event_sizes
      (deliver (some sampleLayout) sampleCatalog [uniformBlock (2 ^ 31)] .fresh).state =
      [-2147483648] := by
    rw [hes]
    show [narrowToInt (2 ^ 31)] = [-2147483648]
    rw [narrowToInt_two_pow_31]
  refine ⟨uniformBlock_inRange _, uniformBlock_returned _, hval, ?_⟩
  rw [hval]
  show ([-2147483648] : List Int) ≠ [((2 ^ 31 : Nat) : Int)]
  decide

/-- Claim C2, as the code has it: for blocks with `npart < 2^31` delivered to a
fresh accessor with a fixed layout (every read in range), and every catalog
name whose quantity is in the layout, the number of values accumulated under
that name, in the double columns for a Double and in the int columns for an
Int32, 0 when there is no column, equals the sum of `event_sizes`. -/
theorem column_count_equals_event_sizes_sum (l : Layout) (catalog : Catalog)
    (blocks : List ParticleBlock) (name : String) (info : QuantityInfo) (offset : Nat)
    (hkeys : (catalog.map Prod.fst).Nodup) (hmem : (name, info) ∈ catalog)
    (hl : l.lookup info.quantity = some offset)
    (hrange : ∀ block ∈ blocks, block.inRange l catalog = true)
    (hbound : ∀ block ∈ blocks, block.npart < 2 ^ 31) :
    (deliver (some l) catalog blocks .fresh).status = .returned ∧
      ((valueCount (deliver (some l) catalog blocks .fresh).state name info.type : Nat) : Int) =
        (get_event_sizes (deliver (some l) catalog blocks .fresh).state).sum := by
  have hret := deliver_returned l catalog blocks .fresh hrange
  refine ⟨hret, ?_⟩
  rw [deliver_valueCount l catalog blocks name info offset hkeys hmem hl hret,
    deliver_fresh_event_sizes l catalog blocks hret, map_narrowToInt_of_lt blocks hbound,
    sum_map_npart_cast]

theorem column_count_equals_event_sizes_sum_witness :
    ((sampleCatalog.map Prod.fst).Nodup ∧
      ("px", (⟨0, .Double⟩ : QuantityInfo)) ∈ sampleCatalog ∧
      sampleLayout.lookup 0 = some 0 ∧
      (∀ block ∈ sampleStream, block.inRange sampleLayout sampleCatalog = true) ∧
      (∀ block ∈ sampleStream, block.npart < 2 ^ 31)) ∧
    ((deliver (some sampleLayout) sampleCatalog sampleStream .fresh).status = .returned ∧
      ((valueCount (deliver (some sampleLayout) sampleCatalog sampleStream .fresh).state
          "px" .Double : Nat) : Int) =
        (get_event_sizes
          (deliver (some sampleLayout) sampleCatalog sampleStream .fresh).state).sum) ∧
    (get_event_sizes (deliver (some sampleLayout) sampleCatalog sampleStream .fresh).state =
        [3, 5] ∧
      (get_double_array (deliver (some sampleLayout) sampleCatalog sampleStream .fresh).state
        "px").map List.length = .ok 8 ∧
      (get_int_array (deliver (some sampleLayout) sampleCatalog sampleStream .fresh).state
        "pdg_id").map List.length = .ok 8) :=
  ⟨⟨by decide, by decide, by decide, by decide, by decide⟩,
    column_count_equals_event_sizes_sum sampleLayout sampleCatalog sampleStream "px"
      ⟨0, .Double⟩ 0 (by decide) (by decide) (by decide) (by decide) (by decide),
    by decide, rfl, rfl⟩

/-- Claim C2 fails for a block of `2^31` particles: `2147483648` values are
accumulated under `px`, while the sum of `event_sizes` is `-2147483648`. -/
theorem column_count_differs_at_two_pow_31 :
    (deliver (some sampleLayout) sampleCatalog [uniformBlock (2 ^ 31)] .fresh).status =
        .returned ∧
      valueCount (deliver (some sampleLayout) sampleCatalog [uniformBlock (2 ^ 31)]
        .fresh).state "px" .Double = 2147483648 ∧
      (get_event_sizes (deliver (some sampleLayout) sampleCatalog [uniformBlock (2 ^ 31)]
        .fresh).state).sum = -2147483648 := by
  have hret := uniformBlock_returned (2 ^ 31)
  have hcount := deliver_valueCount sampleLayout sampleCatalog [uniformBlock (2 ^ 31)] "px"
    ⟨0, .Double⟩ 0 (by decide) (by decide) (by decide) hret
  have hes := deliver_fresh_event_sizes sampleLayout sampleCatalog [uniformBlock (2 ^ 31)] hret
  refine ⟨hret, ?_, ?_⟩
  · rw [hcount]
    show (2 ^ 31 : Nat) + 0 = 2147483648
    decide
  · rw [hes]
    show narrowToInt (2 ^ 31) + 0 = -2147483648
    rw [narrowToInt_two_pow_31]
    decide

/-- Claim C3: skip-unknown-quantity.  For a catalog name whose quantity is
absent from the set layout, and blocks delivered to an accessor in any state,
nothing is thrown, the read returns when the reads of the other quantities are
in range, and the lookup of that name in `doubles` and in `ints` is what it
was before: no entry and no value is added under it. -/
theorem absent_quantity_never_populated (l : Layout) (catalog : Catalog) (name : String)
    (info : QuantityInfo) (hkeys : (catalog.map Prod.fst).Nodup)
    (hmem : (name, info) ∈ catalog) (habsent : l.lookup info.quantity = none)
    (blocks : List ParticleBlock) (acc : CollectorAccessor) :
    (∀ msg, (deliver (some l) catalog blocks acc).status ≠ .threw msg) ∧
      ((∀ block ∈ blocks, block.inRange l catalog = true) →
        (deliver (some l) catalog blocks acc).status = .returned) ∧
      mapAt (deliver (some l) catalog blocks acc).state.doubles name = mapAt acc.doubles name ∧
      mapAt (deliver (some l) catalog blocks acc).state.ints name = mapAt acc.ints name := by
  have hall : ∀ info2, (name, info2) ∈ catalog → l.lookup info2.quantity = none := by
    intro info2 hm
    rw [catalog_entry_unique catalog hkeys name info2 info hm hmem]
    exact habsent
  exact ⟨deliver_never_throws l catalog blocks acc,
    deliver_returned l catalog blocks acc,
    deliver_doubles_untouched l catalog name (fun info2 hm _ => hall info2 hm) blocks acc,
    deliver_ints_untouched l catalog name (fun info2 hm _ => hall info2 hm) blocks acc⟩

theorem absent_quantity_never_populated_witness :
    ((sampleCatalog.map Prod.fst).Nodup ∧
      ("mass", (⟨2, .Double⟩ : QuantityInfo)) ∈ sampleCatalog ∧
      sampleLayout.lookup 2 = none) ∧
    ((∀ msg, (deliver (some sampleLayout) sampleCatalog sampleStream .fresh).status ≠
        .threw msg) ∧
      ((∀ block ∈ sampleStream, block.inRange sampleLayout sampleCatalog = true) →
        (deliver (some sampleLayout) sampleCatalog sampleStream .fresh).status = .returned) ∧
      mapAt (deliver (some sampleLayout) sampleCatalog sampleStream .fresh).state.doubles
          "mass" = mapAt CollectorAccessor.fresh.doubles "mass" ∧
      mapAt (deliver (some sampleLayout) sampleCatalog sampleStream .fresh).state.ints
          "mass" = mapAt CollectorAccessor.fresh.ints "mass") :=
  ⟨⟨by decide, by decide, by decide⟩,
    absent_quantity_never_populated sampleLayout sampleCatalog "mass" ⟨2, .Double⟩
      (by decide) (by decide) (by decide) sampleStream .fresh⟩

/-- Claim C4, as the code has it: with the layout not set, a call on a block
with `npart ≥ 1` (the catalog not being empty) fails with "Layout not set". -/
theorem layout_unset_block_with_particles_throws (catalog : Catalog)
    (acc : CollectorAccessor) (block : ParticleBlock) (hcat : catalog ≠ [])
    (hn : 0 < block.npart) :
    (on_particle_block none catalog acc block).status = .threw "Layout not set" := by
  rw [on_particle_block, particleLoop_none]
  cases catalog with
  | nil => exact absurd rfl hcat
  | cons e rest =>
    have : (block.npart == 0) = false := by
      simp only [beq_eq_false_iff_ne, ne_eq]
      omega
    simp [this]

theorem layout_unset_block_with_particles_throws_witness :
    (sampleCatalog ≠ [] ∧ 0 < (sampleBlock 0 1).npart) ∧
      (on_particle_block none sampleCatalog .fresh (sampleBlock 0 1)).status =
        .threw "Layout not set" :=
  ⟨⟨by decide, by decide⟩,
    layout_unset_block_with_particles_throws sampleCatalog .fresh (sampleBlock 0 1)
      (by decide) (by decide)⟩

/-- Claim C4 fails for a block with `npart = 0`: with the layout not set the
call returns normally, having recorded the size 0. -/
theorem layout_unset_empty_block_returns :
    on_particle_block none sampleCatalog .fresh (sampleBlock 0 0) =
      ⟨{ doubles := [], ints := [], event_sizes := [0] }, .returned⟩ := by
  decide

/-- Claim C7, as the code has it: a column exists once a value was pushed to
it.  After blocks delivered to a fresh accessor with the layout set (every
read in range) that hold at least one particle in all,
`get_double_array(name)` returns a column for every catalog name of type
Double whose quantity is in the layout, and `get_int_array(name)` for every
such name of type Int32; the column has one value per particle. -/
theorem getters_return_once_a_particle_is_decoded (l : Layout) (catalog : Catalog)
    (blocks : List ParticleBlock) (name : String) (info : QuantityInfo) (offset : Nat)
    (hkeys : (catalog.map Prod.fst).Nodup) (hmem : (name, info) ∈ catalog)
    (hl : l.lookup info.quantity = some offset)
    (hrange : ∀ block ∈ blocks, block.inRange l catalog = true)
    (hpos : 0 < (blocks.map fun block => block.npart).sum) :
    (info.type = .Double → ∃ column,
        get_double_array (deliver (some l) catalog blocks .fresh).state name = .ok column ∧
        column.length = (blocks.map fun block => block.npart).sum) ∧
      (info.type = .Int32 → ∃ column,
        get_int_array (deliver (some l) catalog blocks .fresh).state name = .ok column ∧
        column.length = (blocks.map fun block => block.npart).sum) := by
  have hret := deliver_returned l catalog blocks .fresh hrange
  constructor
  · intro hty
    have h := congrArg List.length
      (deliver_doubles_appended l catalog name info offset hty hl hkeys hmem blocks .fresh hret)
    have h0 : valuesUnder CollectorAccessor.fresh.doubles name = [] := rfl
    rw [h0] at h
    simp only [List.map_nil, List.nil_append, List.length_map, readDoubleColumn_length] at h
    unfold valuesUnder at h
    cases hm : mapAt (deliver (some l) catalog blocks .fresh).state.doubles name with
    | none =>
      rw [hm] at h
      simp only [Option.getD_none, List.length_nil] at h
      omega
    | some column =>
      rw [hm] at h
      exact ⟨column, by simp [get_double_array, hm], by simpa using h⟩
  · intro hty
    have h := congrArg List.length
      (deliver_ints_appended l catalog name info offset hty hl hkeys hmem blocks .fresh hret)
    have h0 : valuesUnder CollectorAccessor.fresh.ints name = [] := rfl
    rw [h0] at h
    simp only [List.map_nil, List.nil_append, List.length_map, readIntColumn_length] at h
    unfold valuesUnder at h
    cases hm : mapAt (deliver (some l) catalog blocks .fresh).state.ints name with
    | none =>
      rw [hm] at h
      simp only [Option.getD_none, List.length_nil] at h
      omega
    | some column =>
      rw [hm] at h
      exact ⟨column, by simp [get_int_array, hm], by simpa using h⟩

theorem getters_return_once_a_particle_is_decoded_witness :
    ((sampleCatalog.map Prod.fst).Nodup ∧
      ("px", (⟨0, .Double⟩ : QuantityInfo)) ∈ sampleCatalog ∧
      sampleLayout.lookup 0 = some 0 ∧
      (∀ block ∈ sampleStream, block.inRange sampleLayout sampleCatalog = true) ∧
      0 < (sampleStream.map fun block => block.npart).sum) ∧
    (((⟨0, .Double⟩ : QuantityInfo).type = .Double → ∃ column,
        get_double_array (deliver (some sampleLayout) sampleCatalog sampleStream .fresh).state
          "px" = .ok column ∧
        column.length = (sampleStream.map fun block => block.npart).sum) ∧
      ((⟨0, .Double⟩ : QuantityInfo).type = .Int32 → ∃ column,
        get_int_array (deliver (some sampleLayout) sampleCatalog sampleStream .fresh).state
          "px" = .ok column ∧
        column.length = (sampleStream.map fun block => block.npart).sum)) :=
  ⟨⟨by decide, by decide, by decide, by decide, by decide⟩,
    getters_return_once_a_particle_is_decoded sampleLayout sampleCatalog sampleStream "px"
      ⟨0, .Double⟩ 0 (by decide) (by decide) (by decide) (by decide) (by decide)⟩

/-- Claim C7 fails when no particle was decoded: after no block at all, and
after a block with `npart = 0`, `get_double_array("px")` and
`get_int_array("pdg_id")` raise `std::out_of_range` although both quantities
are in the layout. -/
theorem getters_raise_before_first_particle :
    get_double_array (deliver (some sampleLayout) sampleCatalog [] .fresh).state "px" =
        .error "std::out_of_range" ∧
      get_int_array (deliver (some sampleLayout) sampleCatalog [] .fresh).state "pdg_id" =
        .error "std::out_of_range" ∧
      (deliver (some sampleLayout) sampleCatalog [sampleBlock 0 0] .fresh).status =
        .returned ∧
      get_double_array (deliver (some sampleLayout) sampleCatalog [sampleBlock 0 0]
        .fresh).state "px" = .error "std::out_of_range" ∧
      get_int_array (deliver (some sampleLayout) sampleCatalog [sampleBlock 0 0]
        .fresh).state "pdg_id" = .error "std::out_of_range" :=
  ⟨rfl, rfl, by decide, rfl, rfl⟩

/-- Claim C8: for blocks `b1 .. bn` delivered to a fresh accessor (every read
in range) and a catalog name in the layout at `offset`, the column accumulated
under that name is the concatenation, over the blocks in callback order and in
each block over the particle indices `0 .. npart - 1` in increasing order, of
the bytes `[offset, offset + width)` of that particle's record reinterpreted
as the declared type (8 bytes for a Double, 4 for an Int32); a Double name has
no column in `ints` and an Int32 name none in `doubles`. -/
theorem columns_concatenate_decoded_values (l : Layout) (catalog : Catalog)
    (blocks : List ParticleBlock) (name : String) (info : QuantityInfo) (offset : Nat)
    (hkeys : (catalog.map Prod.fst).Nodup) (hmem : (name, info) ∈ catalog)
    (hl : l.lookup info.quantity = some offset)
    (hrange : ∀ block ∈ blocks, block.inRange l catalog = true) :
    (deliver (some l) catalog blocks .fresh).status = .returned ∧
      (info.type = .Double →
        (valuesUnder (deliver (some l) catalog blocks .fresh).state.doubles name).map some =
            specDoubleColumn blocks offset ∧
          mapAt (deliver (some l) catalog blocks .fresh).state.ints name = none) ∧
      (info.type = .Int32 →
        (valuesUnder (deliver (some l) catalog blocks .fresh).state.ints name).map some =
            specIntColumn blocks offset ∧
          mapAt (deliver (some l) catalog blocks .fresh).state.doubles name = none) := by
  have hret := deliver_returned l catalog blocks .fresh hrange
  have hother : ∀ ty, info.type ≠ ty → ∀ info2, (name, info2) ∈ catalog → info2.type = ty →
      l.lookup info2.quantity = none := by
    intro ty hne info2 hm hty2
    rw [catalog_entry_unique catalog hkeys name info2 info hm hmem] at hty2
    exact absurd hty2 hne
  refine ⟨hret, ?_, ?_⟩
  · intro hty
    constructor
    · rw [← readDoubleColumn_eq_spec]
      simpa [valuesUnder, mapAt, CollectorAccessor.fresh] using
        deliver_doubles_appended l catalog name info offset hty hl hkeys hmem blocks .fresh hret
    · rw [deliver_ints_untouched l catalog name (hother .Int32 (by rw [hty]; decide))]
      rfl
  · intro hty
    constructor
    · rw [← readIntColumn_eq_spec]
      simpa [valuesUnder, mapAt, CollectorAccessor.fresh] using
        deliver_ints_appended l catalog name info offset hty hl hkeys hmem blocks .fresh hret
    · rw [deliver_doubles_untouched l catalog name (hother .Double (by rw [hty]; decide))]
      rfl

theorem columns_concatenate_decoded_values_witness :
    ((sampleCatalog.map Prod.fst).Nodup ∧
      ("pdg_id", (⟨1, .Int32⟩ : QuantityInfo)) ∈ sampleCatalog ∧
      sampleLayout.lookup 1 = some 8 ∧
      ∀ block ∈ [physicalBlock, sampleBlock 1 2],
        block.inRange sampleLayout sampleCatalog = true) ∧
    ((deliver (some sampleLayout) sampleCatalog [physicalBlock, sampleBlock 1 2]
        .fresh).status = .returned ∧
      ((⟨1, .Int32⟩ : QuantityInfo).type = .Double →
        (valuesUnder (deliver (some sampleLayout) sampleCatalog [physicalBlock, sampleBlock 1 2]
            .fresh).state.doubles "pdg_id").map some =
            specDoubleColumn [physicalBlock, sampleBlock 1 2] 8 ∧
          mapAt (deliver (some sampleLayout) sampleCatalog [physicalBlock, sampleBlock 1 2]
            .fresh).state.ints "pdg_id" = none) ∧
      ((⟨1, .Int32⟩ : QuantityInfo).type = .Int32 →
        (valuesUnder (deliver (some sampleLayout) sampleCatalog [physicalBlock, sampleBlock 1 2]
            .fresh).state.ints "pdg_id").map some =
            specIntColumn [physicalBlock, sampleBlock 1 2] 8 ∧
          mapAt (deliver (some sampleLayout) sampleCatalog [physicalBlock, sampleBlock 1 2]
            .fresh).state.doubles "pdg_id" = none)) ∧
    (specIntColumn [physicalBlock, sampleBlock 1 2] 8 = [some (-211), some 256, some 257] ∧
      specDoubleColumn [physicalBlock, sampleBlock 1 2] 0 =
        [some 0x3FF0000000000000, some 0, some 1] ∧
      (deliver (some sampleLayout) sampleCatalog [physicalBlock, sampleBlock 1 2]
        .fresh).state.ints = [("pdg_id", [-211, 256, 257])] ∧
      (deliver (some sampleLayout) sampleCatalog [physicalBlock, sampleBlock 1 2]
        .fresh).state.doubles = [("px", [0x3FF0000000000000, 0, 1])]) :=
  ⟨⟨by decide, by decide, by decide, by decide⟩,
    columns_concatenate_decoded_values sampleLayout sampleCatalog
      [physicalBlock, sampleBlock 1 2] "pdg_id" ⟨1, .Int32⟩ 8 (by decide) (by decide)
      (by decide) (by decide),
    by decide, by decide, by decide, by decide⟩

/-- Claim C9, as the code has it: `on_particle_block` checks no offset against
the record length and raises no format error.  With the layout set it throws
nothing: it returns when every read is in range, and otherwise it reads
outside the record or past the end of `particles`. -/
theorem on_particle_block_checks_no_bounds (l : Layout) (catalog : Catalog)
    (acc : CollectorAccessor) (block : ParticleBlock) :
    (on_particle_block (some l) catalog acc block).status =
        (bif block.inRange l catalog then .returned else .outOfRange) ∧
      ∀ msg, (on_particle_block (some l) catalog acc block).status ≠ .threw msg := by
  refine ⟨on_particle_block_status l catalog acc block, fun msg => ?_⟩
  rw [on_particle_block_status]
  cases block.inRange l catalog <;> simp

/-- Claim C9 fails on a record of 4 bytes with the double `px` at offset 0, and
on a block of `npart = 2` holding one record: no error is raised, the call
reads out of range. -/
theorem short_record_is_read_out_of_range :
    (on_particle_block (some sampleLayout) sampleCatalog .fresh shortRecordBlock).status =
        .outOfRange ∧
      (on_particle_block (some sampleLayout) sampleCatalog .fresh
        { sampleBlock 0 1 with npart := 2 }).status = .outOfRange := by
  decide

/-- Claim C10, as the code has it: when `on_particle_block` fails with "Layout
not set", `doubles` and `ints` are what they were before the call, and
`event_sizes` has gained one entry, `block.npart` converted to `int`
(`block.npart` itself when below `2^31`), pushed before the layout is looked
at. -/
theorem layout_not_set_failure_state (layout : Option Layout) (catalog : Catalog)
    (acc : CollectorAccessor) (block : ParticleBlock)
    (hfail : (on_particle_block layout catalog acc block).status = .threw "Layout not set") :
    (on_particle_block layout catalog acc block).state.doubles = acc.doubles ∧
      (on_particle_block layout catalog acc block).state.ints = acc.ints ∧
      (on_particle_block layout catalog acc block).state.event_sizes =
        acc.event_sizes ++ [narrowToInt block.npart] ∧
      (block.npart < 2 ^ 31 →
        (on_particle_block layout catalog acc block).state.event_sizes =
          acc.event_sizes ++ [(block.npart : Int)]) := by
  cases layout with
  | none =>
    rw [on_particle_block, particleLoop_none]
    refine ⟨rfl, rfl, rfl, fun hlt => ?_⟩
    show acc.event_sizes ++ [narrowToInt block.npart] = _
    rw [narrowToInt_of_lt _ hlt]
  | some l =>
    rw [on_particle_block_status] at hfail
    cases hb : block.inRange l catalog <;> simp [hb] at hfail

theorem layout_not_set_failure_state_witness :
    (on_particle_block none sampleCatalog .fresh (sampleBlock 0 3)).status =
        .threw "Layout not set" ∧
      ((on_particle_block none sampleCatalog .fresh (sampleBlock 0 3)).state.doubles =
          CollectorAccessor.fresh.doubles ∧
        (on_particle_block none sampleCatalog .fresh (sampleBlock 0 3)).state.ints =
          CollectorAccessor.fresh.ints ∧
        (on_particle_block none sampleCatalog .fresh (sampleBlock 0 3)).state.event_sizes =
          CollectorAccessor.fresh.event_sizes ++ [narrowToInt (sampleBlock 0 3).npart] ∧
        ((sampleBlock 0 3).npart < 2 ^ 31 →
          (on_particle_block none sampleCatalog .fresh (sampleBlock 0 3)).state.event_sizes =
            CollectorAccessor.fresh.event_sizes ++ [((sampleBlock 0 3).npart : Int)])) :=
  ⟨by decide,
    layout_not_set_failure_state none sampleCatalog .fresh (sampleBlock 0 3) (by decide)⟩

/-- Claim C10 fails: a call that fails with "Layout not set" on a block of 3
particles leaves `event_sizes = [3]` on a fresh accessor, with no value
decoded. -/
theorem layout_not_set_failure_changes_event_sizes :
    (on_particle_block none sampleCatalog .fresh (sampleBlock 0 3)).status =
        .threw "Layout not set" ∧
      (on_particle_block none sampleCatalog .fresh (sampleBlock 0 3)).state.event_sizes =
        [3] ∧
      (on_particle_block none sampleCatalog .fresh (sampleBlock 0 3)).state.event_sizes ≠
        CollectorAccessor.fresh.event_sizes ∧
      (on_particle_block none sampleCatalog .fresh (sampleBlock 0 3)).state.doubles = [] ∧
      (on_particle_block none sampleCatalog .fresh (sampleBlock 0 3)).state.ints = [] := by
  decide

/-! ## Properties of `run_analysis_file` -/

/-- Claim C5: when `AnalysisRegistry::create` gives no value for the name,
`run_analysis_file` fails with "Unknown analysis '<name>'", having made the
dispatcher and asked the registry and nothing more: no analysis registered, no
reader constructed or read, no `save`, no `print_result_to`. -/
theorem unknown_analysis_fails_before_any_io {A : Type} (env : Collaborators A)
    (filepath analysis_name : String) (quantities : List String)
    (save_path : Option String) (print_output : Bool)
    (hnone : env.create analysis_name = none) :
    (run_analysis_file env filepath analysis_name quantities save_path print_output).result =
        .error ("Unknown analysis '" ++ analysis_name ++ "'") ∧
      (run_analysis_file env filepath analysis_name quantities save_path print_output).calls =
        [Call.make_dispatcher, Call.create analysis_name] := by
  simp [run_analysis_file, hnone]

theorem unknown_analysis_fails_before_any_io_witness :
    sampleCollaborators.create "does-not-exist" = none ∧
      ((run_analysis_file sampleCollaborators "events.bin" "does-not-exist" ["px"]
          (some "out.dat") true).result =
          .error ("Unknown analysis '" ++ "does-not-exist" ++ "'") ∧
        (run_analysis_file sampleCollaborators "events.bin" "does-not-exist" ["px"]
          (some "out.dat") true).calls =
          [Call.make_dispatcher, Call.create "does-not-exist"]) :=
  ⟨by decide,
    unknown_analysis_fails_before_any_io sampleCollaborators "events.bin" "does-not-exist"
      ["px"] (some "out.dat") true (by decide)⟩

/-- Claim C6: for a registered analysis name and a read that succeeds,
`run_analysis_file` returns the text `print_result_to` writes when
`print_output` is true and the empty string, without that call, when it is
false; `save` is called, with the given path, exactly when `save_path` is
given; and in the order of calls `save` and `print_result_to` come after
`read`. -/
theorem run_analysis_file_returns_summary {A : Type} (env : Collaborators A)
    (filepath analysis_name : String) (quantities : List String)
    (save_path : Option String) (print_output : Bool) (created afterRead : A)
    (hcreate : env.create analysis_name = some created)
    (hreader : env.construct_reader filepath quantities = .ok ())
    (hread : env.read filepath quantities created = .ok afterRead) :
    (run_analysis_file env filepath analysis_name quantities save_path print_output).result =
        .ok (bif print_output then env.print_result_to (analysisAtPrint env afterRead save_path)
          else "") ∧
      (run_analysis_file env filepath analysis_name quantities save_path print_output).calls =
        [Call.make_dispatcher, Call.create analysis_name, Call.register_analysis,
            Call.construct_reader filepath quantities, Call.read] ++
          (match save_path with
            | some path => [Call.save path]
            | none => []) ++
          (bif print_output then [Call.print_result_to] else []) := by
  cases save_path <;> cases print_output <;>
    simp [run_analysis_file, hcreate, hreader, hread, analysisAtPrint]

theorem run_analysis_file_returns_summary_witness :
    (sampleCollaborators.create "count" = some 0 ∧
      sampleCollaborators.construct_reader "events.bin" ["px", "pdg_id"] = .ok () ∧
      sampleCollaborators.read "events.bin" ["px", "pdg_id"] 0 = .ok 2) ∧
    ((run_analysis_file sampleCollaborators "events.bin" "count" ["px", "pdg_id"]
        (some "out.dat") true).result = .ok "counted" ∧
      (run_analysis_file sampleCollaborators "events.bin" "count" ["px", "pdg_id"]
        (some "out.dat") true).calls =
        [Call.make_dispatcher, Call.create "count", Call.register_analysis,
          Call.construct_reader "events.bin" ["px", "pdg_id"], Call.read,
          Call.save "out.dat", Call.print_result_to]) :=
  ⟨⟨rfl, rfl, rfl⟩,
    run_analysis_file_returns_summary sampleCollaborators "events.bin" "count"
      ["px", "pdg_id"] (some "out.dat") true 0 2 rfl rfl rfl⟩

end SmashReader
